import Mathlib

/-!
Verification of the wordle-rs core against its specification.

Shallow embedding of the Rust sources under src/wordle-rs/.  Rust strings
are modelled as lists of characters (`Str`), `usize` values as `Nat`
(parsing models the `usize` overflow failure at `2^64` explicitly, and the
reachable-record relation keeps the counters inside the `usize` range, as
the machine type does in the program), `HashSet<String>` as a
duplicate-free list, and fallible code as `Option`.
-/

namespace WordleRs

/-- Rust strings (`String` / `&str`) are modelled as lists of characters. -/
abbrev Str := List Char

/-! ## Scoring engine (src/wordle-rs/src/lib.rs) -/

/-- `WordleGuess` from src/wordle-rs/src/lib.rs: the per-letter verdict. -/
inductive WordleGuess where
  | Correct
  | Present
  | Incorrect
deriving DecidableEq

/-- `WordleAnswer` from src/wordle-rs/src/lib.rs: the hidden word together
with its letter-frequency table.  The Rust `[u8; 26]` array indexed by
`c - 'A'` is modelled as a function `Char → Nat`. -/
structure WordleAnswer where
  word : Str
  letter_counts : Char → Nat

/-- One `counts[c] += 1` step of `WordleAnswer::new`. -/
def bumpCount (cnt : Char → Nat) (c : Char) : Char → Nat :=
  fun d => if d = c then cnt d + 1 else cnt d

/-- One `counts[c] -= 1` step of `WordleAnswer::check_guess` (the `u8`
subtraction never underflows at the points it is used; `Nat` subtraction
agrees there). -/
def dropCount (cnt : Char → Nat) (c : Char) : Char → Nat :=
  fun d => if d = c then cnt d - 1 else cnt d

/-- `WordleAnswer::new`: builds the letter-frequency table by a left-to-right
pass over the word (`word.chars().for_each(|c| letter_counts[c - 'A'] += 1)`). -/
def WordleAnswer.new (word : Str) : WordleAnswer :=
  { word := word
    letter_counts := word.foldl bumpCount (fun _ => 0) }

/-- First pass of `WordleAnswer::check_guess`: walk `answer` and `guess`
left to right (the Rust `zip`), mark `Correct` where the letters agree and
decrement that letter's remaining count; other positions keep the initial
`Incorrect` placeholder. -/
def check_greens : Str → Str → (Char → Nat) → List WordleGuess × (Char → Nat)
  | a :: as_, g :: gs, cnt =>
    if a = g then
      let r := check_greens as_ gs (dropCount cnt g)
      (WordleGuess.Correct :: r.1, r.2)
    else
      let r := check_greens as_ gs cnt
      (WordleGuess.Incorrect :: r.1, r.2)
  | _, _, cnt => ([], cnt)

/-- Second pass of `WordleAnswer::check_guess`: walk `guess` left to right;
a position still `Incorrect` becomes `Present` if the guessed letter's
remaining count is positive (consuming one unit), positions already marked
by the first pass are left untouched. -/
def check_yellows : List WordleGuess → Str → (Char → Nat) → List WordleGuess
  | v :: vs, g :: gs, cnt =>
    match v with
    | WordleGuess.Incorrect =>
      if cnt g > 0 then
        WordleGuess.Present :: check_yellows vs gs (dropCount cnt g)
      else
        WordleGuess.Incorrect :: check_yellows vs gs cnt
    | v => v :: check_yellows vs gs cnt
  | _, _, _ => []

/-- `WordleAnswer::check_guess` from src/wordle-rs/src/lib.rs: copy the
letter counts, run the green pass fully, then the yellow pass.  For the
5/5-letter inputs of the game this coincides with the Rust code; the two
passes are split into the named helpers above, threading the mutable
`letter_counts` array explicitly. -/
def WordleAnswer.check_guess (a : WordleAnswer) (guess : Str) : List WordleGuess :=
  let r := check_greens a.word guess a.letter_counts
  check_yellows r.1 guess r.2

example :
    (WordleAnswer.new "TRACE".data).check_guess "TRACE".data =
      [WordleGuess.Correct, WordleGuess.Correct, WordleGuess.Correct,
       WordleGuess.Correct, WordleGuess.Correct] := by decide

example :
    (WordleAnswer.new "TRACE".data).check_guess "ETRAC".data =
      [WordleGuess.Present, WordleGuess.Present, WordleGuess.Present,
       WordleGuess.Present, WordleGuess.Present] := by decide

example :
    (WordleAnswer.new "AABBB".data).check_guess "CAACC".data =
      [WordleGuess.Incorrect, WordleGuess.Correct, WordleGuess.Present,
       WordleGuess.Incorrect, WordleGuess.Incorrect] := by decide

example :
    (WordleAnswer.new "AZZAZ".data).check_guess "AAABB".data =
      [WordleGuess.Correct, WordleGuess.Present, WordleGuess.Incorrect,
       WordleGuess.Incorrect, WordleGuess.Incorrect] := by decide

example :
    (WordleAnswer.new "BACCC".data).check_guess "AADDD".data =
      [WordleGuess.Incorrect, WordleGuess.Correct, WordleGuess.Incorrect,
       WordleGuess.Incorrect, WordleGuess.Incorrect] := by decide

/-! ## Player records (src/wordle-rs/src/players/mod.rs) -/

/-- `PlayerInfo` from src/wordle-rs/src/players/mod.rs.  The
`HashSet<String>` of played words is modelled as a duplicate-free list
(order irrelevant to the set it denotes), the `[usize; 6]` guess histogram
as a length-6 list of naturals. -/
structure PlayerInfo where
  username : Str
  words_played : List Str
  num_guesses : List Nat
  max_win_streak : Nat
  cur_win_streak : Nat
deriving DecidableEq

/-- `HashSet::insert`: adds the word unless it is already present. -/
def insertWord (l : List Str) (w : Str) : List Str :=
  if w ∈ l then l else w :: l

/-- `PlayerInfo::new`: zero-initialized record (via `PlayerInfo::load`). -/
def PlayerInfo.new (username : Str) : PlayerInfo :=
  { username := username
    words_played := []
    num_guesses := [0, 0, 0, 0, 0, 0]
    max_win_streak := 0
    cur_win_streak := 0 }

/-- `PlayerInfo::add_won_word`: insert the word, bump
`num_guesses[n - 1]`, bump the current streak, then raise the maximum
streak to the just-updated current streak if needed.  (For `n` outside
`1..=6` the Rust indexing panics; `List.set` is then a no-op — the claims
only concern `1 ≤ n ≤ 6`.) -/
def PlayerInfo.add_won_word (p : PlayerInfo) (word : Str) (n : Nat) : PlayerInfo :=
  { p with
    words_played := insertWord p.words_played word
    num_guesses := p.num_guesses.set (n - 1) (p.num_guesses.getD (n - 1) 0 + 1)
    cur_win_streak := p.cur_win_streak + 1
    max_win_streak := max p.max_win_streak (p.cur_win_streak + 1) }

/-- `PlayerInfo::add_lost_word`: insert the word and reset the current
streak; histogram and maximum streak untouched. -/
def PlayerInfo.add_lost_word (p : PlayerInfo) (word : Str) : PlayerInfo :=
  { p with
    words_played := insertWord p.words_played word
    cur_win_streak := 0 }

/-! ## Text database codec
(`impl Display for PlayerInfo` and `PlayerInfo::from_str` in
src/wordle-rs/src/players/mod.rs, with the line primitives of
src/wordle-rs/src/players/database.rs) -/

/-- `Vec::join(",")` / the `{}` formatting of a comma-separated list. -/
def joinComma : List Str → Str
  | [] => []
  | [w] => w
  | w :: ws => w ++ ',' :: joinComma ws

/-- Decimal rendering of a `usize` (`usize`'s `Display`), least-significant
digit produced first by `Nat.digits`, then reversed. -/
def natToStr (n : Nat) : Str :=
  if n = 0 then ['0']
  else ((Nat.digits 10 n).map (fun d => Char.ofNat (48 + d))).reverse

/-- The `Display` implementation for `PlayerInfo`: five `writeln!` lines in
fixed order, each field separated from its name by `": "`. -/
def PlayerInfo.display (p : PlayerInfo) : Str :=
  "Username: ".data ++ p.username ++ '\n' ::
  ("Words Played: ".data ++ joinComma p.words_played ++ '\n' ::
  ("Number of Guesses: ".data ++ joinComma (p.num_guesses.map natToStr) ++ '\n' ::
  ("Maximum Win Streak: ".data ++ natToStr p.max_win_streak ++ '\n' ::
  ("Current Win Streak: ".data ++ natToStr p.cur_win_streak ++ ['\n']))))

/-- Rust `str::lines`: split at `"\n"` or `"\r\n"` line endings, with an
optional final line ending (no trailing empty line). -/
def rustLines : Str → List Str
  | [] => []
  | [c] => if c = '\n' then [[]] else [[c]]
  | c :: c2 :: rest =>
    if c = '\r' ∧ c2 = '\n' then [] :: rustLines rest
    else if c = '\n' then [] :: rustLines (c2 :: rest)
    else
      match rustLines (c2 :: rest) with
      | [] => [[c]]
      | l :: ls => (c :: l) :: ls

/-- Rust `str::split_once(": ")` (`DELIM` in players/database.rs): split at
the first occurrence of the two-character delimiter, `none` if absent. -/
def splitOnceColonSpace : Str → Option (Str × Str)
  | [] => none
  | [_] => none
  | c :: c2 :: rest =>
    if c = ':' ∧ c2 = ' ' then some ([], rest)
    else (splitOnceColonSpace (c2 :: rest)).map (fun kv => (c :: kv.1, kv.2))

/-- Rust `str::split(',')`: the empty string yields one empty piece. -/
def splitComma : Str → List Str
  | [] => [[]]
  | c :: rest =>
    if c = ',' then [] :: splitComma rest
    else
      match splitComma rest with
      | [] => [[c]]
      | l :: ls => (c :: l) :: ls

/-- One leading `'+'` is stripped by Rust `str::parse::<usize>`. -/
def stripPlus (s : Str) : Str :=
  match s with
  | [] => []
  | c :: rest => if c = '+' then rest else c :: rest

/-- `2^64`: one past `usize::MAX` on the 64-bit targets the crate builds
for. -/
def usizeSize : Nat := 2 ^ 64

/-- Rust `str::parse::<usize>`: an optional leading `'+'` followed by at
least one ASCII digit, nothing else; a digit string whose value exceeds
`usize::MAX` fails with `PosOverflow`.  Rust detects the overflow during
accumulation, but over digit strings the running value only grows, so
failing exactly when the full value reaches `2^64` is equivalent. -/
def parseUsize (s : Str) : Option Nat :=
  let t := stripPlus s
  if t.isEmpty then none
  else if t.all Char.isDigit then
    if t.foldl (fun a c => 10 * a + (c.toNat - 48)) 0 < usizeSize then
      some (t.foldl (fun a c => 10 * a + (c.toNat - 48)) 0)
    else none
  else none

example : parseUsize "18446744073709551615".data =
    some 18446744073709551615 := by decide

example : parseUsize "18446744073709551616".data = none := by decide

/-- The array-filling step at the end of `PlayerInfo::from_str`: start from
`[0; 6]`, copy in at most the first six parsed values. -/
def fillSix (vs : List Nat) : List Nat :=
  vs.take 6 ++ List.replicate (6 - vs.length) 0

/-- `PlayerInfo::from_str` from src/wordle-rs/src/players/mod.rs.  `none`
models the `CorruptRecord` error (`bad_data_err`); every `None` of the
`DatabaseEntry` helpers and every element-parse failure is converted to
that error, so the Rust `Result<Option<_>, E>` collapses to `Option`.
The `collect::<HashSet<_>>()` of the words line is modelled by `dedup`. -/
def PlayerInfo.from_str (player_data : Str) : Option PlayerInfo :=
  match rustLines player_data with
  | [l0, l1, l2, l3, l4] => do
    let u ← splitOnceColonSpace l0
    let w ← splitOnceColonSpace l1
    let g ← splitOnceColonSpace l2
    let ns ← (splitComma g.2).mapM parseUsize
    let m ← splitOnceColonSpace l3
    let mv ← parseUsize m.2
    let c ← splitOnceColonSpace l4
    let cv ← parseUsize c.2
    pure { username := u.2
           words_played := (splitComma w.2).dedup
           num_guesses := fillSix ns
           max_win_streak := mv
           cur_win_streak := cv }
  | _ => none

example :
    PlayerInfo.from_str ("Username: player\nWords Played: TRACE\nNumber of Guesses: 0,0,0,0,0,0\nMaximum Win Streak: 0\nCurrent Win Streak: 0".data) =
      some ((PlayerInfo.new "player".data).add_lost_word "TRACE".data) := by decide

example :
    PlayerInfo.display (PlayerInfo.new "user".data) =
      "Username: user\nWords Played: \nNumber of Guesses: 0,0,0,0,0,0\nMaximum Win Streak: 0\nCurrent Win Streak: 0\n".data := by decide

/-! ## Random unplayed-word selection -/

/-- Modelled from the spec: `pick_unplayed_word(dictionary)` of the
`wordle_db::PlayerInfo` used by the callers in
src/wordle-rs/src/console_app/main_menu.rs and
src/wordle-rs/crates/wordle-terminal/src/main_menu.rs (they match on an
`Option`); its defining file (crates/wordle-db/src/players.rs) is not under
src/.  The selection body follows `PlayerInfo::get_random_word` of
src/wordle-rs/src/players/mod.rs: filter the dictionary down to unplayed
words and take the element at the random index, where the index is drawn
from `0..(dictionary.len() - words_played.len())`; per the spec the empty
difference is surfaced as a distinguishable outcome (`none`) rather than a
crash.  The random index is passed as an explicit parameter. -/
def get_random_word (dictionary words_played : List Str) (idx : Nat) : Option Str :=
  (dictionary.filter (fun w => decide (w ∉ words_played))).get? idx

/-! ## Reachable player records

A record is reachable when it is produced from `PlayerInfo::new` by any
sequence of won/lost games.  Words added to the record are answers drawn
from the dictionary, which the spec's data model fixes as uppercase
5-letter words; usernames come from a trimmed line of input, hence contain
no newline or carriage return. -/

/-- Spec §3: a dictionary word is exactly 5 uppercase letters. -/
def ValidWord (w : Str) : Prop :=
  w.length = 5 ∧ ∀ c ∈ w, 'A' ≤ c ∧ c ≤ 'Z'

/-- A username is one trimmed line of input: no line-break characters. -/
def ValidUsername (u : Str) : Prop :=
  '\n' ∉ u ∧ '\r' ∉ u

/-- Player records reachable from `PlayerInfo::new` by `add_won_word`
(with `1 ≤ n ≤ 6`) and `add_lost_word` on valid dictionary words.  The
win step carries the side conditions that its two `usize` increments stay
below `2^64`: the program's counters have machine type `usize`, so no
reachable state holds a larger value (at `usize::MAX` the Rust `+= 1`
would panic in a debug build or wrap in a release build, never producing
the value `2^64`). -/
inductive Reachable : PlayerInfo → Prop where
  | new (u : Str) : ValidUsername u → Reachable (PlayerInfo.new u)
  | won (p : PlayerInfo) (w : Str) (n : Nat) :
      Reachable p → ValidWord w → 1 ≤ n → n ≤ 6 →
      p.cur_win_streak + 1 < usizeSize →
      p.num_guesses.getD (n - 1) 0 + 1 < usizeSize →
      Reachable (p.add_won_word w n)
  | lost (p : PlayerInfo) (w : Str) :
      Reachable p → ValidWord w →
      Reachable (p.add_lost_word w)

/-! ## Lemmas about the record operations -/

theorem mem_insertWord (l : List Str) (w x : Str) :
    x ∈ insertWord l w ↔ x = w ∨ x ∈ l := by
  unfold insertWord
  by_cases h : w ∈ l
  · simp only [if_pos h]
    constructor
    · exact Or.inr
    · rintro (rfl | hx)
      · exact h
      · exact hx
  · simp [if_neg h]

theorem mem_of_mem_insertWord (l : List Str) (w x : Str) (hx : x ∈ l) :
    x ∈ insertWord l w := (mem_insertWord l w x).2 (Or.inr hx)

theorem getD_set_bump (l : List Nat) (i j : Nat) :
    l.getD j 0 ≤ (l.set i (l.getD i 0 + 1)).getD j 0 := by
  rcases eq_or_ne i j with rfl | hij
  · by_cases hi : i < l.length
    · rw [List.getD_eq_getElem?_getD, List.getD_eq_getElem?_getD,
        List.getElem?_set_self hi]
      simp
    · rw [List.getD_eq_getElem?_getD, List.getD_eq_getElem?_getD,
        List.getElem?_set]
      simp [hi, List.getElem?_eq_none (le_of_not_lt hi)]
  · rw [List.getD_eq_getElem?_getD, List.getD_eq_getElem?_getD,
      List.getElem?_set_ne hij]

theorem reachable_streak_le (p : PlayerInfo) (hp : Reachable p) :
    p.cur_win_streak ≤ p.max_win_streak := by
  induction hp with
  | new u hu => simp [PlayerInfo.new]
  | won q w n hp hw h1 h2 hcur hslot ih =>
    simp only [PlayerInfo.add_won_word]
    exact Nat.le_max_right _ _
  | lost q w hp hw ih =>
    simp [PlayerInfo.add_lost_word]

/-- C6: with `1 ≤ guesses_used ≤ 6`, `add_won_word` adds the word to the
played set, bumps exactly the `guesses_used - 1` histogram slot by one,
bumps the current streak by one, sets the maximum streak to the maximum of
its old value and the new current streak, and keeps the username. -/
theorem c6_add_won_word (p : PlayerInfo) (w : Str) (n : Nat)
    (h1 : 1 ≤ n) (h2 : n ≤ 6) (hlen : p.num_guesses.length = 6) :
    (p.add_won_word w n).username = p.username ∧
    (∀ x, x ∈ (p.add_won_word w n).words_played ↔ x = w ∨ x ∈ p.words_played) ∧
    (p.add_won_word w n).num_guesses.getD (n - 1) 0 =
      p.num_guesses.getD (n - 1) 0 + 1 ∧
    (∀ j, j ≠ n - 1 →
      (p.add_won_word w n).num_guesses.getD j 0 = p.num_guesses.getD j 0) ∧
    (p.add_won_word w n).cur_win_streak = p.cur_win_streak + 1 ∧
    (p.add_won_word w n).max_win_streak =
      max p.max_win_streak ((p.add_won_word w n).cur_win_streak) := by
  refine ⟨rfl, fun x => mem_insertWord _ _ _, ?_, ?_, rfl, rfl⟩
  · have hn : n - 1 < p.num_guesses.length := by omega
    simp only [PlayerInfo.add_won_word]
    rw [List.getD_eq_getElem?_getD, List.getElem?_set_self hn]
    simp
  · intro j hj
    simp only [PlayerInfo.add_won_word]
    rw [List.getD_eq_getElem?_getD, List.getElem?_set_ne (Ne.symm hj),
      List.getD_eq_getElem?_getD]

/-- C6 witness: the concrete record of spec scenario 5. -/
theorem c6_add_won_word_witness :
    ((PlayerInfo.new "user".data).add_won_word "TRACE".data 3).username =
        (PlayerInfo.new "user".data).username ∧
    ("TRACE".data ∈
        ((PlayerInfo.new "user".data).add_won_word "TRACE".data 3).words_played ↔
      "TRACE".data = "TRACE".data ∨
        "TRACE".data ∈ (PlayerInfo.new "user".data).words_played) ∧
    ((PlayerInfo.new "user".data).add_won_word "TRACE".data 3).num_guesses.getD 2 0 =
      (PlayerInfo.new "user".data).num_guesses.getD 2 0 + 1 ∧
    ((PlayerInfo.new "user".data).add_won_word "TRACE".data 3).cur_win_streak =
      (PlayerInfo.new "user".data).cur_win_streak + 1 := by
  obtain ⟨h1, h2, h3, _, h5, _⟩ :=
    c6_add_won_word (PlayerInfo.new "user".data) "TRACE".data 3
      (by decide) (by decide) (by decide)
  exact ⟨h1, h2 "TRACE".data, h3, h5⟩

/-- C7 counterexample: for a fresh player, a win followed by a loss does
change `max_win_streak` from the value it held before the pair of
operations (0 before, 1 after), refuting the claim as stated. -/
theorem c7_counterexample :
    ¬ (((PlayerInfo.new "user".data).add_won_word "TRACE".data 3).add_lost_word
        "CRANE".data).max_win_streak =
      (PlayerInfo.new "user".data).max_win_streak := by decide

/-- C7 (amended): `add_won_word` followed by `add_lost_word` resets the
current streak to 0 and leaves `max_win_streak` unchanged from the value
it held after the win, namely `max (old max) (old cur + 1)`; the loss
itself does not modify the maximum streak. -/
theorem c7_win_then_loss (p : PlayerInfo) (w w2 : Str) (n : Nat)
    (h1 : 1 ≤ n) (h2 : n ≤ 6) :
    ((p.add_won_word w n).add_lost_word w2).cur_win_streak = 0 ∧
    ((p.add_won_word w n).add_lost_word w2).max_win_streak =
      (p.add_won_word w n).max_win_streak ∧
    (p.add_won_word w n).max_win_streak =
      max p.max_win_streak (p.cur_win_streak + 1) :=
  ⟨rfl, rfl, rfl⟩

/-- C7 witness: the amended statement at a concrete record. -/
theorem c7_win_then_loss_witness :
    (((PlayerInfo.new "user".data).add_won_word "TRACE".data 3).add_lost_word
        "CRANE".data).cur_win_streak = 0 ∧
    (((PlayerInfo.new "user".data).add_won_word "TRACE".data 3).add_lost_word
        "CRANE".data).max_win_streak =
      ((PlayerInfo.new "user".data).add_won_word "TRACE".data 3).max_win_streak := by
  obtain ⟨ha, hb, _⟩ :=
    c7_win_then_loss (PlayerInfo.new "user".data) "TRACE".data "CRANE".data 3
      (by decide) (by decide)
  exact ⟨ha, hb⟩

/-- C9: every reachable record satisfies
`cur_win_streak ≤ max_win_streak`, and across each operation the played
set only grows and no histogram entry decreases. -/
theorem c9_record_invariants (p : PlayerInfo) (hp : Reachable p)
    (w : Str) (n : Nat) :
    p.cur_win_streak ≤ p.max_win_streak ∧
    (∀ x ∈ p.words_played, x ∈ (p.add_won_word w n).words_played) ∧
    (∀ x ∈ p.words_played, x ∈ (p.add_lost_word w).words_played) ∧
    (∀ j, p.num_guesses.getD j 0 ≤ (p.add_won_word w n).num_guesses.getD j 0) ∧
    (∀ j, p.num_guesses.getD j 0 ≤ (p.add_lost_word w).num_guesses.getD j 0) := by
  refine ⟨reachable_streak_le p hp, ?_, ?_, ?_, ?_⟩
  · exact fun x hx => mem_of_mem_insertWord _ _ _ hx
  · exact fun x hx => mem_of_mem_insertWord _ _ _ hx
  · exact fun j => getD_set_bump _ _ _
  · exact fun j => Nat.le_refl _

/-- C9 witness: the invariants at a concrete reachable record. -/
theorem c9_record_invariants_witness :
    ((PlayerInfo.new "user".data).add_won_word "TRACE".data 3).cur_win_streak ≤
      ((PlayerInfo.new "user".data).add_won_word "TRACE".data 3).max_win_streak := by
  have h :=
    c9_record_invariants ((PlayerInfo.new "user".data).add_won_word "TRACE".data 3)
      (Reachable.won _ "TRACE".data 3
        (Reachable.new "user".data ⟨by decide, by decide⟩)
        ⟨by decide, by decide⟩ (by decide) (by decide) (by decide) (by decide))
      "CRANE".data 2
  exact h.1

/-! ## Lemmas about unplayed-word selection -/

theorem length_filter_split (played : List Str) (dict : List Str) :
    (dict.filter (fun w => decide (w ∉ played))).length +
      (dict.filter (fun w => decide (w ∈ played))).length = dict.length := by
  induction dict with
  | nil => rfl
  | cons d ds ih =>
    by_cases hd : d ∈ played <;>
      simp [List.filter_cons, hd, ← ih] <;> omega

theorem filter_played_perm (dict played : List Str)
    (hd : dict.Nodup) (hp : played.Nodup) (hsub : ∀ w ∈ played, w ∈ dict) :
    (dict.filter (fun w => decide (w ∈ played))).Perm played := by
  rw [List.perm_ext_iff_of_nodup (hd.filter _) hp]
  intro a
  simp only [List.mem_filter, decide_eq_true_eq]
  exact ⟨fun h => h.2, fun h => ⟨hsub a h, h⟩⟩

/-- C2: when every dictionary word has already been played, the word
picker signals exhaustion as a distinguishable `none` outcome for every
value of the random index, rather than crashing. -/
theorem c2_dictionary_exhausted (dict played : List Str) (idx : Nat)
    (h : ∀ w ∈ dict, w ∈ played) :
    get_random_word dict played idx = none := by
  unfold get_random_word
  have hnil : dict.filter (fun w => decide (w ∉ played)) = [] :=
    List.filter_eq_nil_iff.2 (fun a ha => by simp [h a ha])
  rw [hnil]
  rfl

/-- C2 witness: a dictionary of size 1 whose sole word was already played
signals exhaustion. -/
theorem c2_dictionary_exhausted_witness :
    get_random_word ["TRACE".data] ["TRACE".data] 0 = none :=
  c2_dictionary_exhausted ["TRACE".data] ["TRACE".data] 0 (by decide)

/-- C5: with a duplicate-free dictionary and played set, the unplayed
candidates form a duplicate-free enumeration of `dictionary − words_played`
whose length is exactly the size of the random-index range (when
`words_played ⊆ dictionary`), so a uniformly random index selects
uniformly from `dictionary − words_played`; in particular, for every
index in range the returned word is a dictionary word not yet played. -/
theorem c5_random_word_uniform (dict played : List Str) (idx : Nat)
    (hd : dict.Nodup) (hp : played.Nodup) (hsub : ∀ w ∈ played, w ∈ dict) :
    (dict.filter (fun w => decide (w ∉ played))).Nodup ∧
    (∀ w, w ∈ dict.filter (fun w => decide (w ∉ played)) ↔
      w ∈ dict ∧ w ∉ played) ∧
    (dict.filter (fun w => decide (w ∉ played))).length =
      dict.length - played.length ∧
    (idx < dict.length - played.length →
      ∃ w, get_random_word dict played idx = some w ∧ w ∈ dict ∧ w ∉ played) := by
  have hlen : (dict.filter (fun w => decide (w ∉ played))).length =
      dict.length - played.length := by
    have h1 := length_filter_split played dict
    have h2 : (dict.filter (fun w => decide (w ∈ played))).length =
        played.length :=
      (filter_played_perm dict played hd hp hsub).length_eq
    omega
  refine ⟨hd.filter _, ?_, hlen, ?_⟩
  · intro w
    simp [List.mem_filter]
  · intro hidx
    have hlt : idx < (dict.filter (fun w => decide (w ∉ played))).length := by
      omega
    refine ⟨(dict.filter (fun w => decide (w ∉ played))).get ((⟨idx, hlt⟩ : Fin _)),
      List.get?_eq_get hlt, ?_⟩
    have hmem : (dict.filter (fun w => decide (w ∉ played))).get
        ((⟨idx, hlt⟩ : Fin _)) ∈ dict.filter (fun w => decide (w ∉ played)) :=
      List.get_mem _ idx hlt
    have := List.mem_filter.1 hmem
    simpa using this

/-- C5 witness: a concrete two-word dictionary with one word played. -/
theorem c5_random_word_uniform_witness :
    ∃ w, get_random_word ["TRACE".data, "CRANE".data] ["TRACE".data] 0 = some w ∧
      w ∈ ["TRACE".data, "CRANE".data] ∧ w ∉ ["TRACE".data] := by
  have h :=
    c5_random_word_uniform ["TRACE".data, "CRANE".data] ["TRACE".data] 0
      (by decide) (by decide) (by decide)
  exact h.2.2.2 (by decide)

/-! ## Lemmas about the scoring engine -/

/-- Number of positions of the result marked with verdict `v` whose
guessed letter is `L`. -/
def verdict_count (g : Str) (res : List WordleGuess) (v : WordleGuess) (L : Char) : Nat :=
  (g.zip res).countP (fun p => decide (p.1 = L ∧ p.2 = v))

theorem letter_counts_spec (a : Str) (L : Char) :
    (WordleAnswer.new a).letter_counts L = a.count L := by
  suffices h : ∀ (l : Str) (cnt : Char → Nat),
      l.foldl bumpCount cnt L = cnt L + l.count L by
    simpa [WordleAnswer.new] using h a (fun _ => 0)
  intro l
  induction l with
  | nil => simp
  | cons c cs ih =>
    intro cnt
    rw [List.foldl_cons, ih, List.count_cons]
    by_cases hc : L = c
    · simp only [bumpCount, hc, if_pos rfl, beq_self_eq_true, if_true]
      omega
    · simp [bumpCount, hc, Ne.symm]

theorem check_greens_length (a g : Str) (cnt : Char → Nat) :
    (check_greens a g cnt).1.length = min a.length g.length := by
  induction a generalizing g cnt with
  | nil => cases g <;> simp [check_greens]
  | cons x as ih =>
    cases g with
    | nil => simp [check_greens]
    | cons y gs =>
      by_cases hxy : x = y <;>
        simp [check_greens, hxy, ih, Nat.succ_min_succ]

theorem present_not_mem_check_greens (a g : Str) (cnt : Char → Nat) :
    WordleGuess.Present ∉ (check_greens a g cnt).1 := by
  induction a generalizing g cnt with
  | nil => cases g <;> simp [check_greens]
  | cons x as ih =>
    cases g with
    | nil => simp [check_greens]
    | cons y gs =>
      by_cases hxy : x = y <;> simp [check_greens, hxy] <;> exact ih _ _

theorem check_yellows_correct_at (vs : List WordleGuess) (g : Str)
    (cnt : Char → Nat) (i : Nat) (hl : vs.length = g.length) :
    (check_yellows vs g cnt)[i]? = some WordleGuess.Correct ↔
      vs[i]? = some WordleGuess.Correct := by
  induction vs generalizing g cnt i with
  | nil =>
    cases g with
    | nil => simp [check_yellows]
    | cons y gs => simp at hl
  | cons v vs ih =>
    cases g with
    | nil => simp at hl
    | cons y gs =>
      have hl' : vs.length = gs.length := by simpa using hl
      cases v with
      | Incorrect =>
        by_cases hc : cnt y > 0
        · simp only [check_yellows, if_pos hc]
          cases i with
          | zero => simp
          | succ j => simpa using ih gs (dropCount cnt y) j hl'
        · simp only [check_yellows, if_neg hc]
          cases i with
          | zero => simp
          | succ j => simpa using ih gs cnt j hl'
      | Correct =>
        simp only [check_yellows]
        cases i with
        | zero => simp
        | succ j => simpa using ih gs cnt j hl'
      | Present =>
        simp only [check_yellows]
        cases i with
        | zero => simp
        | succ j => simpa using ih gs cnt j hl'

theorem check_greens_correct_at (a g : Str) (cnt : Char → Nat) (i : Nat)
    (hia : i < a.length) (hig : i < g.length) :
    (check_greens a g cnt).1[i]? = some WordleGuess.Correct ↔
      a[i]? = g[i]? := by
  induction a generalizing g cnt i with
  | nil => simp at hia
  | cons x as ih =>
    cases g with
    | nil => simp at hig
    | cons y gs =>
      by_cases hxy : x = y
      · subst hxy
        simp only [check_greens, if_pos rfl]
        cases i with
        | zero => simp
        | succ j =>
          simpa using ih gs _ j (by simpa using hia) (by simpa using hig)
      · simp only [check_greens, if_neg hxy]
        cases i with
        | zero => simp [hxy]
        | succ j =>
          simpa using ih gs _ j (by simpa using hia) (by simpa using hig)

theorem check_greens_cons_eq (x : Char) (as : Str) (y : Char) (gs : Str)
    (cnt : Char → Nat) (h : x = y) :
    check_greens (x :: as) (y :: gs) cnt =
      (WordleGuess.Correct :: (check_greens as gs (dropCount cnt y)).1,
       (check_greens as gs (dropCount cnt y)).2) := by
  simp [check_greens, h]

theorem check_greens_cons_ne (x : Char) (as : Str) (y : Char) (gs : Str)
    (cnt : Char → Nat) (h : ¬x = y) :
    check_greens (x :: as) (y :: gs) cnt =
      (WordleGuess.Incorrect :: (check_greens as gs cnt).1,
       (check_greens as gs cnt).2) := by
  simp [check_greens, h]

theorem greens_count_eq_matches (a g : Str) (cnt : Char → Nat) (L : Char) :
    (g.zip (check_greens a g cnt).1).countP
        (fun p => decide (p.1 = L ∧ p.2 = WordleGuess.Correct)) =
      (a.zip g).countP (fun p => decide (p.1 = p.2 ∧ p.2 = L)) := by
  induction a generalizing g cnt with
  | nil => cases g <;> simp [check_greens]
  | cons x as ih =>
    cases g with
    | nil => simp [check_greens]
    | cons y gs =>
      by_cases hxy : x = y
      · subst hxy
        rw [check_greens_cons_eq x as x gs cnt rfl]
        simp only [List.zip_cons_cons, List.countP_cons]
        rw [ih]
        by_cases hxL : x = L <;> simp [hxL]
      · rw [check_greens_cons_ne x as y gs cnt hxy]
        simp only [List.zip_cons_cons, List.countP_cons]
        rw [ih]
        simp [hxy]

theorem check_greens_budget (a g : Str) (L : Char) :
    ∀ cnt : Char → Nat,
      (a.zip g).countP (fun p => decide (p.1 = p.2 ∧ p.2 = L)) ≤ cnt L →
      (check_greens a g cnt).2 L =
        cnt L - (a.zip g).countP (fun p => decide (p.1 = p.2 ∧ p.2 = L)) := by
  induction a generalizing g with
  | nil => intro cnt hc; cases g <;> simp [check_greens]
  | cons x as ih =>
    cases g with
    | nil => intro cnt hc; simp [check_greens]
    | cons y gs =>
      intro cnt hc
      rw [List.zip_cons_cons] at hc ⊢
      by_cases hxy : x = y
      · subst hxy
        rw [check_greens_cons_eq x as x gs cnt rfl]
        by_cases hxL : x = L
        · subst hxL
          rw [List.countP_cons_of_pos _ _ (by simp)] at hc ⊢
          have hdropL : dropCount cnt x x = cnt x - 1 := by
            simp [dropCount]
          have hc' : (as.zip gs).countP
              (fun p => decide (p.1 = p.2 ∧ p.2 = x)) ≤ dropCount cnt x x := by
            rw [hdropL]; omega
          rw [ih gs (dropCount cnt x) hc', hdropL]
          omega
        · rw [List.countP_cons_of_neg _ _ (by simp [hxL])] at hc ⊢
          have hLx : ¬L = x := fun h => hxL h.symm
          have hdropL : dropCount cnt x L = cnt L := by
            simp [dropCount, hLx]
          rw [ih gs (dropCount cnt x) (by rw [hdropL]; exact hc), hdropL]
      · rw [check_greens_cons_ne x as y gs cnt hxy]
        rw [List.countP_cons_of_neg _ _ (by simp [hxy])] at hc ⊢
        exact ih gs cnt hc

theorem check_yellows_cons_correct (vs : List WordleGuess) (y : Char) (gs : Str)
    (cnt : Char → Nat) :
    check_yellows (WordleGuess.Correct :: vs) (y :: gs) cnt =
      WordleGuess.Correct :: check_yellows vs gs cnt := rfl

theorem check_yellows_cons_present (vs : List WordleGuess) (y : Char) (gs : Str)
    (cnt : Char → Nat) :
    check_yellows (WordleGuess.Present :: vs) (y :: gs) cnt =
      WordleGuess.Present :: check_yellows vs gs cnt := rfl

theorem check_yellows_cons_incorrect_pos (vs : List WordleGuess) (gs : Str)
    (cnt : Char → Nat) (y : Char) (h : cnt y > 0) :
    check_yellows (WordleGuess.Incorrect :: vs) (y :: gs) cnt =
      WordleGuess.Present :: check_yellows vs gs (dropCount cnt y) := by
  simp [check_yellows, h]

theorem check_yellows_cons_incorrect_zero (vs : List WordleGuess) (gs : Str)
    (cnt : Char → Nat) (y : Char) (h : ¬cnt y > 0) :
    check_yellows (WordleGuess.Incorrect :: vs) (y :: gs) cnt =
      WordleGuess.Incorrect :: check_yellows vs gs cnt := by
  simp [check_yellows, h]

theorem matches_le_count (a : Str) (L : Char) :
    ∀ g : Str, (a.zip g).countP (fun p => decide (p.1 = p.2 ∧ p.2 = L)) ≤
      a.count L := by
  induction a with
  | nil => intro g; simp
  | cons x as ih =>
    intro g
    cases g with
    | nil => simp
    | cons y gs =>
      rw [List.zip_cons_cons, List.count_cons]
      by_cases hh : x = y ∧ y = L
      · rw [List.countP_cons_of_pos _ _ (by simp [hh.1, hh.2])]
        have hLx : (x == L) = true := beq_iff_eq.mpr (hh.1.trans hh.2)
        rw [hLx]
        simpa using Nat.add_le_add_right (ih gs) 1
      · rw [List.countP_cons_of_neg _ _ (by simpa using hh)]
        by_cases hLx : (x == L) = true
        · rw [if_pos hLx]
          exact le_trans (ih gs) (Nat.le_succ _)
        · rw [if_neg hLx]
          exact ih gs

theorem check_yellows_correct_count (vs : List WordleGuess) (g : Str) (L : Char) :
    ∀ cnt : Char → Nat,
      (g.zip (check_yellows vs g cnt)).countP
          (fun p => decide (p.1 = L ∧ p.2 = WordleGuess.Correct)) =
        (g.zip vs).countP
          (fun p => decide (p.1 = L ∧ p.2 = WordleGuess.Correct)) := by
  induction vs generalizing g with
  | nil => intro cnt; cases g <;> simp [check_yellows]
  | cons v vs ih =>
    intro cnt
    cases g with
    | nil => simp [check_yellows]
    | cons y gs =>
      cases v with
      | Incorrect =>
        by_cases hc : cnt y > 0
        · rw [check_yellows_cons_incorrect_pos vs gs cnt y hc,
            List.zip_cons_cons, List.zip_cons_cons,
            List.countP_cons_of_neg _ _ (by simp),
            List.countP_cons_of_neg _ _ (by simp)]
          exact ih gs (dropCount cnt y)
        · rw [check_yellows_cons_incorrect_zero vs gs cnt y hc,
            List.zip_cons_cons, List.zip_cons_cons,
            List.countP_cons_of_neg _ _ (by simp),
            List.countP_cons_of_neg _ _ (by simp)]
          exact ih gs cnt
      | Correct =>
        rw [check_yellows_cons_correct, List.zip_cons_cons, List.zip_cons_cons,
          List.countP_cons, List.countP_cons, ih gs cnt]
      | Present =>
        rw [check_yellows_cons_present, List.zip_cons_cons, List.zip_cons_cons,
          List.countP_cons_of_neg _ _ (by simp),
          List.countP_cons_of_neg _ _ (by simp)]
        exact ih gs cnt

theorem check_yellows_present_budget (vs : List WordleGuess) (g : Str) (L : Char) :
    ∀ cnt : Char → Nat, WordleGuess.Present ∉ vs →
      (g.zip (check_yellows vs g cnt)).countP
          (fun p => decide (p.1 = L ∧ p.2 = WordleGuess.Present)) ≤ cnt L := by
  induction vs generalizing g with
  | nil => intro cnt _; cases g <;> simp [check_yellows]
  | cons v vs ih =>
    intro cnt hnp
    cases g with
    | nil => simp [check_yellows]
    | cons y gs =>
      have hnp' : WordleGuess.Present ∉ vs :=
        fun h => hnp (List.mem_cons_of_mem _ h)
      cases v with
      | Present => simp at hnp
      | Correct =>
        rw [check_yellows_cons_correct, List.zip_cons_cons,
          List.countP_cons_of_neg _ _ (by simp)]
        exact ih gs cnt hnp'
      | Incorrect =>
        by_cases hc : cnt y > 0
        · rw [check_yellows_cons_incorrect_pos vs gs cnt y hc,
            List.zip_cons_cons]
          by_cases hyL : y = L
          · subst hyL
            rw [List.countP_cons_of_pos _ _ (by simp)]
            have hd := ih gs (dropCount cnt y) hnp'
            have hdrop : dropCount cnt y y = cnt y - 1 := by simp [dropCount]
            rw [hdrop] at hd
            omega
          · rw [List.countP_cons_of_neg _ _ (by simp [hyL])]
            have hd := ih gs (dropCount cnt y) hnp'
            have hLy : ¬L = y := fun h => hyL h.symm
            have hdrop : dropCount cnt y L = cnt L := by
              simp [dropCount, hLy]
            rw [hdrop] at hd
            exact hd
        · rw [check_yellows_cons_incorrect_zero vs gs cnt y hc,
            List.zip_cons_cons, List.countP_cons_of_neg _ _ (by simp)]
          exact ih gs cnt hnp'

/-- C3: for every letter value `L`, the number of positions the checker
marks `Correct` with guessed letter `L` plus the number it marks `Present`
with guessed letter `L` never exceeds the number of occurrences of `L` in
the answer. -/
theorem c3_letter_budget (a g : Str) (ha : a.length = 5) (hg : g.length = 5)
    (L : Char) :
    verdict_count g ((WordleAnswer.new a).check_guess g) WordleGuess.Correct L +
      verdict_count g ((WordleAnswer.new a).check_guess g) WordleGuess.Present L ≤
      a.count L := by
  have hword : (WordleAnswer.new a).word = a := rfl
  simp only [verdict_count, WordleAnswer.check_guess, hword]
  have hm := matches_le_count a L g
  have hb := check_greens_budget a g L (WordleAnswer.new a).letter_counts
    (by rw [letter_counts_spec]; exact hm)
  have hcc := check_yellows_correct_count
    (check_greens a g (WordleAnswer.new a).letter_counts).1 g L
    (check_greens a g (WordleAnswer.new a).letter_counts).2
  have hpb := check_yellows_present_budget
    (check_greens a g (WordleAnswer.new a).letter_counts).1 g L
    (check_greens a g (WordleAnswer.new a).letter_counts).2
    (present_not_mem_check_greens a g _)
  have hgc := greens_count_eq_matches a g (WordleAnswer.new a).letter_counts L
  have hc0 := letter_counts_spec a L
  rw [hcc, hgc]
  rw [hb, hc0] at hpb
  omega

/-- C3 witness: spec scenario 4 (answer AZZAZ, guess AAABB) at letter A. -/
theorem c3_letter_budget_witness :
    verdict_count "AAABB".data
        ((WordleAnswer.new "AZZAZ".data).check_guess "AAABB".data)
        WordleGuess.Correct 'A' +
      verdict_count "AAABB".data
        ((WordleAnswer.new "AZZAZ".data).check_guess "AAABB".data)
        WordleGuess.Present 'A' ≤
      "AZZAZ".data.count 'A' :=
  c3_letter_budget "AZZAZ".data "AAABB".data (by decide) (by decide) 'A'

/-- C4: after both passes, position `i` carries `Correct` exactly when the
guess letter equals the answer letter there; and a position the green pass
marked `Correct` is still `Correct` in the final result (never
downgraded). -/
theorem c4_correct_positions (a g : Str) (ha : a.length = 5) (hg : g.length = 5)
    (i : Nat) (hi : i < 5) :
    (((WordleAnswer.new a).check_guess g)[i]? = some WordleGuess.Correct ↔
      a[i]? = g[i]?) ∧
    ((check_greens a g (WordleAnswer.new a).letter_counts).1[i]? =
        some WordleGuess.Correct →
      ((WordleAnswer.new a).check_guess g)[i]? = some WordleGuess.Correct) := by
  have hlen : (check_greens a g (WordleAnswer.new a).letter_counts).1.length =
      g.length := by
    rw [check_greens_length, ha, hg]
    simp
  have hy := check_yellows_correct_at
    (check_greens a g (WordleAnswer.new a).letter_counts).1 g
    (check_greens a g (WordleAnswer.new a).letter_counts).2 i hlen
  have hgr := check_greens_correct_at a g (WordleAnswer.new a).letter_counts i
    (ha ▸ hi) (hg ▸ hi)
  unfold WordleAnswer.check_guess
  constructor
  · exact hy.trans hgr
  · intro h
    exact hy.2 h

/-- C4 witness: spec scenario 4 (answer AZZAZ, guess AAABB), position 0. -/
theorem c4_correct_positions_witness :
    ((WordleAnswer.new "AZZAZ".data).check_guess "AAABB".data)[0]? =
        some WordleGuess.Correct ↔
      "AZZAZ".data[0]? = "AAABB".data[0]? :=
  (c4_correct_positions "AZZAZ".data "AAABB".data (by decide) (by decide) 0
    (by decide)).1

/-! ## Lemmas about the text database codec -/

theorem isDigit_ne (c : Char) (h : c.isDigit = true) :
    c ≠ ',' ∧ c ≠ '\n' ∧ c ≠ '\r' ∧ c ≠ '+' := by
  refine ⟨?_, ?_, ?_, ?_⟩ <;> (intro he; rw [he] at h) <;>
    exact absurd h (by decide)

theorem digitChar_facts (d : Nat) (hd : d < 10) :
    (Char.ofNat (48 + d)).isDigit = true ∧ (Char.ofNat (48 + d)).toNat = 48 + d := by
  interval_cases d <;> exact ⟨by decide, by decide⟩

theorem natToStr_ne_nil (n : Nat) : natToStr n ≠ [] := by
  unfold natToStr
  by_cases h : n = 0
  · simp [h]
  · rw [if_neg h]
    simp [Nat.digits_ne_nil_iff_ne_zero.mpr h]

theorem natToStr_all_digit (n : Nat) : ∀ c ∈ natToStr n, c.isDigit = true := by
  by_cases h : n = 0
  · subst h
    intro c hc
    rw [show natToStr 0 = ['0'] from rfl, List.mem_singleton] at hc
    rw [hc]
    decide
  · rw [show natToStr n =
      ((Nat.digits 10 n).map (fun d => Char.ofNat (48 + d))).reverse from by
        unfold natToStr; rw [if_neg h]]
    intro c hc
    rw [List.mem_reverse, List.mem_map] at hc
    obtain ⟨d, hd, rfl⟩ := hc
    exact (digitChar_facts d (Nat.digits_lt_base (by norm_num) hd)).1

theorem natToStr_no_special (n : Nat) :
    ',' ∉ natToStr n ∧ '\n' ∉ natToStr n ∧ '\r' ∉ natToStr n := by
  refine ⟨fun h => ?_, fun h => ?_, fun h => ?_⟩ <;>
    exact absurd (natToStr_all_digit n _ h) (by decide)

theorem stripPlus_of_all_digit (s : Str) (hne : s ≠ [])
    (h : ∀ c ∈ s, c.isDigit = true) : stripPlus s = s := by
  cases s with
  | nil => cases hne rfl
  | cons c rest =>
    have hcp := (isDigit_ne c (h c (List.mem_cons_self _ _))).2.2.2
    simp [stripPlus, hcp]

theorem foldl_natToStr (n : Nat) :
    (natToStr n).foldl (fun a c => 10 * a + (c.toNat - 48)) 0 = n := by
  unfold natToStr
  by_cases h : n = 0
  · simp [h]
  · rw [if_neg h, List.foldl_reverse, List.foldr_map]
    have key : ∀ (l : List Nat), (∀ d ∈ l, d < 10) →
        List.foldr (fun d a => 10 * a + ((Char.ofNat (48 + d)).toNat - 48)) 0 l =
          Nat.ofDigits 10 l := by
      intro l hl
      induction l with
      | nil => simp [Nat.ofDigits]
      | cons d ds ih =>
        rw [List.foldr_cons, ih (fun x hx => hl x (List.mem_cons_of_mem _ hx)),
          Nat.ofDigits_cons, (digitChar_facts d (hl d (List.mem_cons_self _ _))).2]
        push_cast
        omega
    rw [key _ (fun d hd => Nat.digits_lt_base (by norm_num) hd),
      Nat.ofDigits_digits]

theorem parseUsize_natToStr (n : Nat) (h : n < usizeSize) :
    parseUsize (natToStr n) = some n := by
  unfold parseUsize
  rw [stripPlus_of_all_digit _ (natToStr_ne_nil n) (natToStr_all_digit n)]
  rw [if_neg (by simp [List.isEmpty_iff, natToStr_ne_nil n])]
  rw [if_pos (List.all_eq_true.mpr (natToStr_all_digit n))]
  rw [foldl_natToStr, if_pos h]

theorem mapM_parseUsize_natToStr (ns : List Nat)
    (h : ∀ k ∈ ns, k < usizeSize) :
    (ns.map natToStr).mapM parseUsize = some ns := by
  induction ns with
  | nil => rfl
  | cons n ns ih =>
    rw [List.map_cons, List.mapM_cons,
      parseUsize_natToStr n (h n (List.mem_cons_self _ _)),
      ih (fun k hk => h k (List.mem_cons_of_mem _ hk))]
    rfl

theorem splitComma_no_comma (w : Str) (h : ',' ∉ w) : splitComma w = [w] := by
  induction w with
  | nil => rfl
  | cons c cs ih =>
    have hc : ¬c = ',' := fun e => h (by rw [e]; exact List.mem_cons_self _ _)
    have hcs : ',' ∉ cs := fun hm => h (List.mem_cons_of_mem _ hm)
    simp [splitComma, hc, ih hcs]

theorem splitComma_append (w t : Str) (h : ',' ∉ w) :
    splitComma (w ++ ',' :: t) = w :: splitComma t := by
  induction w with
  | nil => simp [splitComma]
  | cons c cs ih =>
    have hc : ¬c = ',' := fun e => h (by rw [e]; exact List.mem_cons_self _ _)
    have hcs : ',' ∉ cs := fun hm => h (List.mem_cons_of_mem _ hm)
    rw [List.cons_append]
    simp [splitComma, hc, ih hcs]

theorem splitComma_joinComma (ws : List Str) (hne : ws ≠ [])
    (h : ∀ w ∈ ws, ',' ∉ w) :
    splitComma (joinComma ws) = ws := by
  induction ws with
  | nil => cases hne rfl
  | cons w ws ih =>
    cases ws with
    | nil =>
      simpa [joinComma] using splitComma_no_comma w (h w (List.mem_cons_self _ _))
    | cons w2 ws2 =>
      rw [show joinComma (w :: w2 :: ws2) = w ++ ',' :: joinComma (w2 :: ws2)
          from rfl,
        splitComma_append w _ (h w (List.mem_cons_self _ _)),
        ih (by simp) (fun x hx => h x (List.mem_cons_of_mem _ hx))]

theorem mem_joinComma (ws : List Str) (c : Char) (hc : c ∈ joinComma ws) :
    c = ',' ∨ ∃ w ∈ ws, c ∈ w := by
  induction ws with
  | nil => simp [joinComma] at hc
  | cons w ws ih =>
    cases ws with
    | nil =>
      right
      exact ⟨w, List.mem_cons_self _ _, by simpa [joinComma] using hc⟩
    | cons w2 ws2 =>
      rw [show joinComma (w :: w2 :: ws2) = w ++ ',' :: joinComma (w2 :: ws2)
          from rfl] at hc
      rcases List.mem_append.1 hc with h1 | h2
      · right
        exact ⟨w, List.mem_cons_self _ _, h1⟩
      · rcases List.mem_cons.1 h2 with rfl | h3
        · left; rfl
        · rcases ih h3 with h4 | ⟨w3, hw3, hcw3⟩
          · left; exact h4
          · right; exact ⟨w3, List.mem_cons_of_mem _ hw3, hcw3⟩

theorem splitOnce_key (key v : Str) (hk : ':' ∉ key) :
    splitOnceColonSpace (key ++ ':' :: ' ' :: v) = some (key, v) := by
  induction key with
  | nil => simp [splitOnceColonSpace]
  | cons c cs ih =>
    have hc : ¬c = ':' := fun e => hk (by rw [e]; exact List.mem_cons_self _ _)
    have hcs : ':' ∉ cs := fun hm => hk (List.mem_cons_of_mem _ hm)
    rw [List.cons_append]
    cases hcase : cs ++ ':' :: ' ' :: v with
    | nil => simp at hcase
    | cons d ds =>
      have hsplit : splitOnceColonSpace (d :: ds) = some (cs, v) := by
        rw [← hcase]
        exact ih hcs
      simp only [splitOnceColonSpace]
      rw [if_neg (by rintro ⟨h1, _⟩; exact hc h1), hsplit]
      rfl

theorem rustLines_cons_nl (s : Str) :
    rustLines ('\n' :: s) = [] :: rustLines s := by
  cases s with
  | nil => simp [rustLines]
  | cons c2 rest =>
    simp only [rustLines]
    rw [if_neg (by rintro ⟨h1, _⟩; exact absurd h1 (by decide))]
    simp

theorem rustLines_cons_other (c : Char) (s : Str) (hn : ¬c = '\n')
    (hr : ¬c = '\r') :
    rustLines (c :: s) =
      match rustLines s with
      | [] => [[c]]
      | l :: ls => (c :: l) :: ls := by
  cases s with
  | nil => simp [rustLines, hn]
  | cons c2 rest =>
    simp only [rustLines]
    rw [if_neg (by rintro ⟨h1, _⟩; exact hr h1), if_neg hn]

theorem rustLines_append (l rest : Str) (hn : '\n' ∉ l) (hr : '\r' ∉ l) :
    rustLines (l ++ '\n' :: rest) = l :: rustLines rest := by
  induction l with
  | nil => simpa using rustLines_cons_nl rest
  | cons c cs ih =>
    have hcn : ¬c = '\n' := fun e => hn (by rw [e]; exact List.mem_cons_self _ _)
    have hcr : ¬c = '\r' := fun e => hr (by rw [e]; exact List.mem_cons_self _ _)
    have hcsn : '\n' ∉ cs := fun hm => hn (List.mem_cons_of_mem _ hm)
    have hcsr : '\r' ∉ cs := fun hm => hr (List.mem_cons_of_mem _ hm)
    rw [List.cons_append, rustLines_cons_other c _ hcn hcr, ih hcsn hcsr]

theorem valid_word_chars (w : Str) (hw : ValidWord w) :
    ',' ∉ w ∧ '\n' ∉ w ∧ '\r' ∉ w := by
  refine ⟨fun h => ?_, fun h => ?_, fun h => ?_⟩ <;>
    exact absurd (hw.2 _ h) (by decide)

theorem not_mem_append_str (c : Char) (l1 l2 : Str) (h1 : c ∉ l1)
    (h2 : c ∉ l2) : c ∉ l1 ++ l2 := by
  simp [List.mem_append, h1, h2]

theorem joinComma_words_no_nl (ws : List Str) (hw : ∀ w ∈ ws, ValidWord w) :
    '\n' ∉ joinComma ws ∧ '\r' ∉ joinComma ws := by
  constructor <;>
    · intro h
      rcases mem_joinComma ws _ h with h1 | ⟨w, hwm, hcw⟩
      · exact absurd h1 (by decide)
      · rcases valid_word_chars w (hw w hwm) with ⟨_, h2, h3⟩
        first
          | exact h2 hcw
          | exact h3 hcw

theorem joinComma_nats_no_nl (ns : List Nat) :
    '\n' ∉ joinComma (ns.map natToStr) ∧ '\r' ∉ joinComma (ns.map natToStr) := by
  constructor <;>
    · intro h
      rcases mem_joinComma _ _ h with h1 | ⟨w, hwm, hcw⟩
      · exact absurd h1 (by decide)
      · obtain ⟨n, _, rfl⟩ := List.mem_map.1 hwm
        rcases natToStr_no_special n with ⟨_, h2, h3⟩
        first
          | exact h2 hcw
          | exact h3 hcw

/-- The `Display` output of a record with line-break-free username and
valid played words splits back into exactly its five lines. -/
theorem display_lines (p : PlayerInfo)
    (hun : '\n' ∉ p.username) (hur : '\r' ∉ p.username)
    (hw : ∀ w ∈ p.words_played, ValidWord w) :
    rustLines p.display =
      ["Username: ".data ++ p.username,
       "Words Played: ".data ++ joinComma p.words_played,
       "Number of Guesses: ".data ++ joinComma (p.num_guesses.map natToStr),
       "Maximum Win Streak: ".data ++ natToStr p.max_win_streak,
       "Current Win Streak: ".data ++ natToStr p.cur_win_streak] := by
  obtain ⟨hwn, hwr⟩ := joinComma_words_no_nl p.words_played hw
  obtain ⟨hgn, hgr⟩ := joinComma_nats_no_nl p.num_guesses
  obtain ⟨_, hmn, hmr⟩ := natToStr_no_special p.max_win_streak
  obtain ⟨_, hcn2, hcr2⟩ := natToStr_no_special p.cur_win_streak
  unfold PlayerInfo.display
  rw [rustLines_append _ _
    (not_mem_append_str _ _ _ (by decide) hun)
    (not_mem_append_str _ _ _ (by decide) hur)]
  rw [rustLines_append _ _
    (not_mem_append_str _ _ _ (by decide) hwn)
    (not_mem_append_str _ _ _ (by decide) hwr)]
  rw [rustLines_append _ _
    (not_mem_append_str _ _ _ (by decide) hgn)
    (not_mem_append_str _ _ _ (by decide) hgr)]
  rw [rustLines_append _ _
    (not_mem_append_str _ _ _ (by decide) hmn)
    (not_mem_append_str _ _ _ (by decide) hmr)]
  rw [show (['\n'] : Str) = '\n' :: [] from rfl,
    rustLines_append _ _
      (not_mem_append_str _ _ _ (by decide) hcn2)
      (not_mem_append_str _ _ _ (by decide) hcr2)]
  rfl

/-- Every reachable record is structurally well formed: its username has
no line breaks, every played word is a valid dictionary word, the played
list is duplicate-free, and the histogram has exactly 6 slots. -/
theorem reachable_wf (p : PlayerInfo) (hp : Reachable p) :
    ValidUsername p.username ∧ (∀ w ∈ p.words_played, ValidWord w) ∧
      p.words_played.Nodup ∧ p.num_guesses.length = 6 ∧
      (∀ k ∈ p.num_guesses, k < usizeSize) ∧
      p.max_win_streak < usizeSize ∧ p.cur_win_streak < usizeSize := by
  induction hp with
  | new u hu => exact ⟨hu, by simp [PlayerInfo.new], by simp [PlayerInfo.new],
      by simp [PlayerInfo.new],
      by intro k hk; simp [PlayerInfo.new] at hk; simp [hk, usizeSize],
      by simp [PlayerInfo.new, usizeSize], by simp [PlayerInfo.new, usizeSize]⟩
  | won q w n hp hw h1 h2 hcur hslot ih =>
    obtain ⟨ihu, ihw, ihn, ihl, ihb, ihbm, ihbc⟩ := ih
    refine ⟨ihu, ?_, ?_, ?_, ?_, ?_, hcur⟩
    · intro x hx
      rcases (mem_insertWord _ _ _).1 hx with rfl | hx2
      · exact hw
      · exact ihw x hx2
    · unfold PlayerInfo.add_won_word insertWord
      by_cases hmem : w ∈ q.words_played
      · rw [if_pos hmem]
        exact ihn
      · rw [if_neg hmem]
        exact List.nodup_cons.mpr ⟨hmem, ihn⟩
    · simpa [PlayerInfo.add_won_word, List.length_set] using ihl
    · intro k hk
      rcases List.mem_or_eq_of_mem_set hk with hk2 | rfl
      · exact ihb k hk2
      · exact hslot
    · exact Nat.max_lt.mpr ⟨ihbm, hcur⟩
  | lost q w hp hw ih =>
    obtain ⟨ihu, ihw, ihn, ihl, ihb, ihbm, ihbc⟩ := ih
    refine ⟨ihu, ?_, ?_, ihl, ihb, ihbm,
      show (0 : Nat) < usizeSize by decide⟩
    · intro x hx
      rcases (mem_insertWord _ _ _).1 hx with rfl | hx2
      · exact hw
      · exact ihw x hx2
    · unfold PlayerInfo.add_lost_word insertWord
      by_cases hmem : w ∈ q.words_played
      · rw [if_pos hmem]
        exact ihn
      · rw [if_neg hmem]
        exact List.nodup_cons.mpr ⟨hmem, ihn⟩

/-- Serialize-then-parse round trip for well-formed records with at least
one played word. -/
theorem from_str_display (p : PlayerInfo)
    (hu : ValidUsername p.username)
    (hw : ∀ w ∈ p.words_played, ValidWord w)
    (hnd : p.words_played.Nodup)
    (hne : p.words_played ≠ [])
    (hlen : p.num_guesses.length = 6)
    (hb : ∀ k ∈ p.num_guesses, k < usizeSize)
    (hbm : p.max_win_streak < usizeSize)
    (hbc : p.cur_win_streak < usizeSize) :
    PlayerInfo.from_str p.display = some p := by
  have hwc : ∀ w ∈ p.words_played, ',' ∉ w :=
    fun w hwm => (valid_word_chars w (hw w hwm)).1
  have e0 : splitOnceColonSpace ("Username: ".data ++ p.username) =
      some ("Username".data, p.username) := by
    rw [show ("Username: ".data ++ p.username : Str) =
        "Username".data ++ ':' :: ' ' :: p.username from rfl]
    exact splitOnce_key _ _ (by decide)
  have e1 : splitOnceColonSpace
      ("Words Played: ".data ++ joinComma p.words_played) =
      some ("Words Played".data, joinComma p.words_played) := by
    rw [show ("Words Played: ".data ++ joinComma p.words_played : Str) =
        "Words Played".data ++ ':' :: ' ' :: joinComma p.words_played from rfl]
    exact splitOnce_key _ _ (by decide)
  have e2 : splitOnceColonSpace
      ("Number of Guesses: ".data ++ joinComma (p.num_guesses.map natToStr)) =
      some ("Number of Guesses".data, joinComma (p.num_guesses.map natToStr)) := by
    rw [show ("Number of Guesses: ".data ++
          joinComma (p.num_guesses.map natToStr) : Str) =
        "Number of Guesses".data ++ ':' :: ' ' ::
          joinComma (p.num_guesses.map natToStr) from rfl]
    exact splitOnce_key _ _ (by decide)
  have e3 : splitOnceColonSpace
      ("Maximum Win Streak: ".data ++ natToStr p.max_win_streak) =
      some ("Maximum Win Streak".data, natToStr p.max_win_streak) := by
    rw [show ("Maximum Win Streak: ".data ++ natToStr p.max_win_streak : Str) =
        "Maximum Win Streak".data ++ ':' :: ' ' :: natToStr p.max_win_streak
        from rfl]
    exact splitOnce_key _ _ (by decide)
  have e4 : splitOnceColonSpace
      ("Current Win Streak: ".data ++ natToStr p.cur_win_streak) =
      some ("Current Win Streak".data, natToStr p.cur_win_streak) := by
    rw [show ("Current Win Streak: ".data ++ natToStr p.cur_win_streak : Str) =
        "Current Win Streak".data ++ ':' :: ' ' :: natToStr p.cur_win_streak
        from rfl]
    exact splitOnce_key _ _ (by decide)
  have ewords : (splitComma (joinComma p.words_played)).dedup =
      p.words_played := by
    rw [splitComma_joinComma p.words_played hne hwc, List.dedup_eq_self.mpr hnd]
  have emapne : p.num_guesses.map natToStr ≠ [] := by
    intro h
    rw [List.map_eq_nil] at h
    rw [h] at hlen
    simp at hlen
  have enats : (splitComma (joinComma (p.num_guesses.map natToStr))).mapM
      parseUsize = some p.num_guesses := by
    rw [splitComma_joinComma _ emapne
      (fun m hm => by
        obtain ⟨k, _, rfl⟩ := List.mem_map.1 hm
        exact (natToStr_no_special k).1),
      mapM_parseUsize_natToStr p.num_guesses hb]
  have emax : parseUsize (natToStr p.max_win_streak) =
      some p.max_win_streak := parseUsize_natToStr _ hbm
  have ecur : parseUsize (natToStr p.cur_win_streak) =
      some p.cur_win_streak := parseUsize_natToStr _ hbc
  have efill : fillSix p.num_guesses = p.num_guesses := by
    unfold fillSix
    rw [List.take_of_length_le (le_of_eq hlen), hlen]
    simp
  unfold PlayerInfo.from_str
  rw [display_lines p hu.1 hu.2 hw]
  simp only [e0, e1, e2, e3, e4, enats, emax, ecur,
    Option.bind_eq_bind, Option.some_bind, Option.pure_def, ewords, efill]

/-- C1 counterexample: for the zero/new-player record the round trip does
not return the original record: the empty played set serializes to an
empty list value, which parses back as the singleton set containing the
empty string. -/
theorem c1_counterexample :
    PlayerInfo.from_str (PlayerInfo.new "user".data).display ≠
      some (PlayerInfo.new "user".data) ∧
    PlayerInfo.from_str (PlayerInfo.new "user".data).display =
      some { username := "user".data
             words_played := [[]]
             num_guesses := [0, 0, 0, 0, 0, 0]
             max_win_streak := 0
             cur_win_streak := 0 } := by decide

/-- C1 (amended): for every reachable record whose played set is
non-empty (at least one completed game), serializing to the five-line text
and parsing back returns the record unchanged — same username, played
set, histogram and streaks. -/
theorem c1_round_trip (p : PlayerInfo) (hp : Reachable p)
    (hne : p.words_played ≠ []) :
    PlayerInfo.from_str p.display = some p := by
  obtain ⟨hu, hw, hnd, hlen, hb, hbm, hbc⟩ := reachable_wf p hp
  exact from_str_display p hu hw hnd hne hlen hb hbm hbc

/-- C1 witness: the round trip at the concrete record of spec
scenario 5. -/
theorem c1_round_trip_witness :
    PlayerInfo.from_str
        ((PlayerInfo.new "user".data).add_won_word "TRACE".data 3).display =
      some ((PlayerInfo.new "user".data).add_won_word "TRACE".data 3) :=
  c1_round_trip _
    (Reachable.won _ "TRACE".data 3
      (Reachable.new "user".data ⟨by decide, by decide⟩)
      ⟨by decide, by decide⟩ (by decide) (by decide) (by decide) (by decide))
    (by decide)

/-- Five-line record text whose `Number of Guesses` value is the
comma-separated rendering of `vs`; all other fields fixed. -/
def guessesLineInput (vs : List Nat) : Str :=
  "Username: user".data ++ '\n' ::
  ("Words Played: TRACE".data ++ '\n' ::
  ("Number of Guesses: ".data ++ joinComma (vs.map natToStr) ++ '\n' ::
  ("Maximum Win Streak: 0".data ++ '\n' ::
  ("Current Win Streak: 0".data ++ ['\n']))))

/-- C10: the `Number of Guesses` line accepts any non-empty
comma-separated list of parseable integers; its first six values fill the
histogram in order, values beyond the sixth are ignored, and missing
slots stay 0. -/
theorem c10_histogram_line (vs : List Nat) (hne : vs ≠ [])
    (hbs : ∀ k ∈ vs, k < usizeSize) :
    PlayerInfo.from_str (guessesLineInput vs) =
      some { username := "user".data
             words_played := ["TRACE".data]
             num_guesses := vs.take 6 ++ List.replicate (6 - vs.length) 0
             max_win_streak := 0
             cur_win_streak := 0 } := by
  obtain ⟨hgn, hgr⟩ := joinComma_nats_no_nl vs
  have hlines : rustLines (guessesLineInput vs) =
      ["Username: user".data,
       "Words Played: TRACE".data,
       "Number of Guesses: ".data ++ joinComma (vs.map natToStr),
       "Maximum Win Streak: 0".data,
       "Current Win Streak: 0".data] := by
    unfold guessesLineInput
    rw [rustLines_append _ _ (by decide) (by decide)]
    rw [rustLines_append _ _ (by decide) (by decide)]
    rw [rustLines_append _ _ (not_mem_append_str _ _ _ (by decide) hgn)
      (not_mem_append_str _ _ _ (by decide) hgr)]
    rw [rustLines_append _ _ (by decide) (by decide)]
    rw [show (['\n'] : Str) = '\n' :: [] from rfl,
      rustLines_append _ _ (by decide) (by decide)]
    rfl
  have e2 : splitOnceColonSpace
      ("Number of Guesses: ".data ++ joinComma (vs.map natToStr)) =
      some ("Number of Guesses".data, joinComma (vs.map natToStr)) := by
    rw [show ("Number of Guesses: ".data ++
          joinComma (vs.map natToStr) : Str) =
        "Number of Guesses".data ++ ':' :: ' ' ::
          joinComma (vs.map natToStr) from rfl]
    exact splitOnce_key _ _ (by decide)
  have e0 : splitOnceColonSpace "Username: user".data =
      some ("Username".data, "user".data) := by decide
  have e1 : splitOnceColonSpace "Words Played: TRACE".data =
      some ("Words Played".data, "TRACE".data) := by decide
  have e3 : splitOnceColonSpace "Maximum Win Streak: 0".data =
      some ("Maximum Win Streak".data, ['0']) := by decide
  have e4 : splitOnceColonSpace "Current Win Streak: 0".data =
      some ("Current Win Streak".data, ['0']) := by decide
  have ep0 : parseUsize ['0'] = some 0 := by decide
  have emapne : vs.map natToStr ≠ [] :=
    fun h => hne (List.map_eq_nil.1 h)
  have enats : (splitComma (joinComma (vs.map natToStr))).mapM parseUsize =
      some vs := by
    rw [splitComma_joinComma _ emapne
      (fun m hm => by
        obtain ⟨k, _, rfl⟩ := List.mem_map.1 hm
        exact (natToStr_no_special k).1),
      mapM_parseUsize_natToStr vs hbs]
  unfold PlayerInfo.from_str
  rw [hlines]
  simp only [e0, e1, e2, e3, e4, ep0, enats, Option.bind_eq_bind,
    Option.some_bind, Option.pure_def, fillSix]
  rfl

/-- C10 witness: a seven-value guesses line is accepted, the first six
values land in order, and the seventh is ignored. -/
theorem c10_histogram_line_witness :
    PlayerInfo.from_str (guessesLineInput [1, 2, 3, 4, 5, 6, 7]) =
      some { username := "user".data
             words_played := ["TRACE".data]
             num_guesses := [1, 2, 3, 4, 5, 6].take 6 ++
               List.replicate (6 - [1, 2, 3, 4, 5, 6, 7].length) 0
             max_win_streak := 0
             cur_win_streak := 0 } := by
  have h := c10_histogram_line [1, 2, 3, 4, 5, 6, 7] (by decide) (by decide)
  simpa using h

/-- The value part of a `key: value` line, when the separator exists. -/
def lineValue (l : Str) : Option Str :=
  (splitOnceColonSpace l).map Prod.snd

/-- Some numeric field of the record text fails to parse: an element of
the comma-split `Number of Guesses` value (line 2), or the value of the
`Maximum Win Streak` line (line 3) or the `Current Win Streak` line
(line 4). -/
def numericFieldBad (ls : List Str) : Prop :=
  (∃ v, lineValue (ls.getD 2 []) = some v ∧
    (splitComma v).mapM parseUsize = none) ∨
  (∃ v, lineValue (ls.getD 3 []) = some v ∧ parseUsize v = none) ∨
  (∃ v, lineValue (ls.getD 4 []) = some v ∧ parseUsize v = none)

/-- C8: parsing a player record fails (the `CorruptRecord` error,
modelled as `none`) exactly when the text does not consist of exactly
5 lines, or some line lacks the `": "` separator, or some numeric field
fails to parse as a non-negative integer; otherwise parsing succeeds. -/
theorem c8_parse_failure (s : Str) :
    PlayerInfo.from_str s = none ↔
      (rustLines s).length ≠ 5 ∨
      (∃ l ∈ rustLines s, splitOnceColonSpace l = none) ∨
      numericFieldBad (rustLines s) := by
  unfold PlayerInfo.from_str numericFieldBad lineValue
  generalize rustLines s = ls
  rcases ls with _ | ⟨l0, _ | ⟨l1, _ | ⟨l2, _ | ⟨l3, _ | ⟨l4, _ | ⟨l5, rest⟩⟩⟩⟩⟩⟩
  · simp
  · simp
  · simp
  · simp
  · simp
  · rcases h0 : splitOnceColonSpace l0 with _ | ⟨k0, v0⟩
    · simp [h0]
    rcases h1 : splitOnceColonSpace l1 with _ | ⟨k1, v1⟩
    · simp [h0, h1]
    rcases h2 : splitOnceColonSpace l2 with _ | ⟨k2, v2⟩
    · simp [h0, h1, h2]
    rcases hns : (splitComma v2).mapM parseUsize with _ | ns <;>
      unfold List.mapM at hns
    · simp [h0, h1, h2, hns]
    rcases h3 : splitOnceColonSpace l3 with _ | ⟨k3, v3⟩
    · simp [h0, h1, h2, hns, h3]
    rcases hmv : parseUsize v3 with _ | mv
    · simp [h0, h1, h2, hns, h3, hmv]
    rcases h4 : splitOnceColonSpace l4 with _ | ⟨k4, v4⟩
    · simp [h0, h1, h2, hns, h3, hmv, h4]
    rcases hcv : parseUsize v4 with _ | cv
    · simp [h0, h1, h2, hns, h3, hmv, h4, hcv]
    · simp [h0, h1, h2, hns, h3, hmv, h4, hcv]
  · simp <;> omega

end WordleRs
